import Mathlib

/-!
Verification of the `flood` benchmarking engine (files `config.rs` and
`workload.rs`) against its natural-language specification. The Rust code is
shallowly embedded: pure functions become Lean functions, stateful methods
pass their state explicitly, `Instant`s are natural numbers of nanoseconds,
`f64` arithmetic is modelled over the reals, and fallible code returns
`Option`/`Except` (with `none` standing for a Rust panic where the source
calls `unwrap`).
-/

namespace Flood

/-- Interval from `config.rs`: how long the benchmark should run — a number
of cycles, a wall-clock duration (modelled as total nanoseconds), or
unbounded. -/
inductive Interval where
  | Count (cnt : Nat)
  | Time (d : Nat)
  | Unbounded
deriving DecidableEq, Repr

/-- Interval::is_not_zero from `config.rs`: `Count cnt => cnt > 0`,
`Time d => !d.is_zero()`, `Unbounded => false`. -/
def Interval.is_not_zero : Interval → Bool
  | .Count cnt => cnt > 0
  | .Time d => !(d == 0)
  | .Unbounded => false

/-- Interval::is_bounded from `config.rs`: false only for `Unbounded`. -/
def Interval.is_bounded : Interval → Bool
  | .Unbounded => false
  | _ => true

/-- Model of Rust `str::parse::<u64>` as used by `Interval::from_str`: an
optional leading plus sign, then one or more decimal digits, with the value
below 2^64; anything else fails. -/
def parseU64? (s : String) : Option Nat :=
  let t := if s.data.head? = some '+' then s.data.tail else s.data
  if !t.isEmpty && t.all Char.isDigit then
    let v := t.foldl (fun a c => 10 * a + (c.toNat - 48)) 0
    if v < 2 ^ 64 then some v else none
  else none

/-- Interval's FromStr impl from `config.rs`: first try the string as an
integer cycle count, then fall back to the external `parse_duration` crate
(abstracted as the oracle `parseDur`, returning total nanoseconds), else
fail with the error string from the source. -/
def Interval.from_str (parseDur : String → Option Nat) (s : String) :
    Except String Interval :=
  match parseU64? s with
  | some i => .ok (.Count i)
  | none =>
    match parseDur s with
    | some d => .ok (.Time d)
    | none => .error "Required integer number of cycles or time duration"

/-- FnStats from `workload.rs`: the cycle-level call counter and the
recorded latency values; the HDR histogram is modelled by the multiset of
values it has recorded, kept as a list in recording order. -/
structure FnStats where
  call_count : Nat
  call_times_ns : List Nat
deriving DecidableEq, Repr

/-- Default for FnStats in `workload.rs`: zero count, empty histogram. -/
def FnStats.default : FnStats := ⟨0, []⟩

/-- The expression `duration.as_nanos().clamp(1, u64::MAX as u128) as u64`
from `FnStats::operation_completed`; the clamp makes the `as u64` cast
lossless. -/
def clampNanos (nanos : Nat) : Nat := min (max nanos 1) (2 ^ 64 - 1)

/-- FnStats::operation_completed from `workload.rs`: increment `call_count`
and record the clamped duration into the histogram. -/
def FnStats.operation_completed (s : FnStats) (duration_ns : Nat) : FnStats :=
  { call_count := s.call_count + 1
    call_times_ns := s.call_times_ns ++ [clampNanos duration_ns] }

/-- Repeated application of `operation_completed`, one call per recorded
duration, in order. -/
def applyOps (s : FnStats) (ds : List Nat) : FnStats :=
  ds.foldl FnStats.operation_completed s

/-- Modelled from the spec: `SessionStats` is defined in the crate root
(`lib.rs`), which is not among the given source files. Per the spec it keeps
per-connection counters of request completions and errors, updated by the
`complete_request` hook and read-and-cleared with the same swap discipline
as `FnStats`. -/
structure SessionStats where
  req_count : Nat
  error_count : Nat
deriving DecidableEq, Repr

/-- Modelled from the spec: fresh zeroed session counters. -/
def SessionStats.default : SessionStats := ⟨0, 0⟩

/-- Modelled from the spec: `complete_request` records one completion and
counts an error exactly when the dispatch result was a failure. -/
def SessionStats.complete_request (st : SessionStats) (ok : Bool) : SessionStats :=
  { req_count := st.req_count + 1
    error_count := st.error_count + if ok then 0 else 1 }

/-- Modelled from the spec: the crate's error type (`error.rs` is not among
the given source files); the one case the spec names at this layer is a
session that cannot be duplicated. -/
inductive FloodError where
  | sessionCloneFailed
deriving DecidableEq, Repr

/-- Modelled from the spec: `Context` (crate root) holds the shared session
handle plus the `SessionStats`; `canDuplicate` abstracts whether the
underlying session can be duplicated, which per the spec decides whether
`Context::clone` fails. -/
structure Context where
  canDuplicate : Bool
  stats : SessionStats
deriving DecidableEq, Repr

/-- Modelled from the spec: `Context::clone` fails iff the underlying
session cannot be duplicated; a successful clone carries fresh session
counters so that no two workers share mutable `SessionStats`. -/
def Context.clone (c : Context) : Except FloodError Context :=
  if c.canDuplicate then .ok { canDuplicate := c.canDuplicate, stats := SessionStats.default }
  else .error .sessionCloneFailed

/-- Modelled from the spec: `Context::take_session_stats` returns the
current session counters and swaps in fresh zeroed ones. -/
def Context.take_session_stats (c : Context) : SessionStats × Context :=
  (c.stats, { c with stats := SessionStats.default })

/-- A pre-built JSON-RPC request descriptor; its payload is opaque to the
workload layer (`Request<Box<RawValue>>` in the source). -/
structure Request where
  method : String
  params : String
deriving DecidableEq, Repr

/-- WorkloadState from `workload.rs`: the mutable part of a workload. -/
structure WorkloadState where
  start_time : Nat
  fn_stats : FnStats
deriving DecidableEq, Repr

/-- Default for WorkloadState in `workload.rs`: `Instant::now()` is an
external effect, so the current time is passed in as `now`. -/
def WorkloadState.init (now : Nat) : WorkloadState := ⟨now, FnStats.default⟩

/-- Workload from `workload.rs`. The `TryLock` around the state is dropped:
in this sequential embedding the single logical owner holds the state
directly. -/
structure Workload where
  context : Context
  state : WorkloadState
  requests : List Request
deriving DecidableEq, Repr

/-- WorkloadStats from `workload.rs`: the immutable snapshot produced by
`take_stats`. -/
structure WorkloadStats where
  start_time : Nat
  end_time : Nat
  function_stats : FnStats
  session_stats : SessionStats
deriving DecidableEq, Repr

/-- Workload::new from `workload.rs`. -/
def Workload.new (context : Context) (requests : List Request) (now : Nat) : Workload :=
  ⟨context, WorkloadState.init now, requests⟩

/-- Workload::clone from `workload.rs`: clone the context (which may fail),
deep-copy the request list, and construct a brand-new default
`WorkloadState`. -/
def Workload.clone (w : Workload) (now : Nat) : Except FloodError Workload :=
  match w.context.clone with
  | .ok ctx => .ok ⟨ctx, WorkloadState.init now, w.requests⟩
  | .error e => .error e

/-- Workload::call from `workload.rs`: dispatch every pre-built request in
order and fold each outcome into the session stats via `complete_request`;
the network round-trip is an external effect, abstracted by the `dispatch`
oracle (`true` = the RPC succeeded). `call` itself always returns `Ok(())`. -/
def Workload.call (w : Workload) (dispatch : Request → Bool) :
    Except FloodError Unit × Context :=
  (.ok (),
   { w.context with
       stats := w.requests.foldl (fun st r => st.complete_request (dispatch r)) w.context.stats })

/-- Workload::run from `workload.rs`: wrap one `call` between two
`Instant::now()` readings (passed in as `start_time` and `end_time`), feed
the cycle-level elapsed time into `fn_stats` via `operation_completed`, and
return `Ok((cycle, end_time))` in both the `Ok` and the `Err` arm of the
match on the call result. -/
def Workload.run (w : Workload) (cycle : Nat) (dispatch : Request → Bool)
    (start_time end_time : Nat) : Except FloodError (Nat × Nat) × Workload :=
  let rsCtx := w.call dispatch
  let w2 : Workload :=
    { context := rsCtx.2
      state := { w.state with
                   fn_stats := w.state.fn_stats.operation_completed (end_time - start_time) }
      requests := w.requests }
  match rsCtx.1 with
  | .ok _ => (.ok (cycle, end_time), w2)
  | .error _ => (.ok (cycle, end_time), w2)

/-- Workload::reset from `workload.rs`: zero `fn_stats`, set the start time,
and reset the session-level counters. -/
def Workload.reset (w : Workload) (start_time : Nat) : Workload :=
  { w with
      state := { start_time := start_time, fn_stats := FnStats.default }
      context := { w.context with stats := SessionStats.default } }

/-- Workload::take_stats from `workload.rs`: snapshot the accumulated state
(together with the taken session stats) and swap in fresh zeroed state, with
the retained `start_time` set to the snapshot's `end_time`. -/
def Workload.take_stats (w : Workload) (end_time : Nat) : WorkloadStats × Workload :=
  let taken := w.context.take_session_stats
  (⟨w.state.start_time, end_time, w.state.fn_stats, taken.1⟩,
   { w with
       context := taken.2
       state := { start_time := end_time, fn_stats := FnStats.default } })

/-- Ramp start rate from `RpcCommand::parse_rate` in `config.rs`: the Rust
expression `(10 / num_req) as f64` — truncating natural-number division,
then conversion to float (modelled as a real). -/
noncomputable def rampStartRate (num_req : Nat) : ℝ := ((10 / num_req : Nat) : ℝ)

/-- Ramp ceiling rate from `RpcCommand::parse_rate` in `config.rs`:
`(max_rate / num_req as u64) as f64` — truncating division of the
configured `exp_ramp` ceiling. -/
noncomputable def rampMaxRate (ceiling num_req : Nat) : ℝ := ((ceiling / num_req : Nat) : ℝ)

/-- One ramp step from `RpcCommand::parse_rate` in `config.rs`: with
`ratio = i / 9`, the code computes
`start_rate * E.powf((max_rate.log10() - start_rate.log10()) * ratio)`;
`E.powf` is `Real.exp` and `f64::log10` is `Real.logb 10`. -/
noncomputable def rampRate (ceiling num_req i : Nat) : ℝ :=
  rampStartRate num_req *
    Real.exp ((Real.logb 10 (rampMaxRate ceiling num_req) -
      Real.logb 10 (rampStartRate num_req)) * (i / 9))

/-- RpcCommand::parse_rate from `config.rs`: a configured `exp_ramp` ceiling
takes precedence and yields the ten `rampRate` points; otherwise each flat
rate is divided by `num_req`; `none` when neither is configured. -/
noncomputable def parse_rate (exp_ramp : Option Nat) (rate : Option (List ℝ))
    (num_req : Nat) : Option (List ℝ) :=
  match exp_ramp with
  | some ceiling => some ((List.range 10).map fun i => rampRate ceiling num_req i)
  | none =>
    match rate with
    | some rs => some (rs.map fun r => r / (num_req : ℝ))
    | none => none

/-- Model of Rust `str::split("..")` from `parse_range` in `config.rs`:
split at the leftmost non-overlapping occurrences of two consecutive dots;
the accumulator holds the current chunk reversed. -/
def splitDotsAux : List Char → List Char → List (List Char)
  | acc, [] => [acc.reverse]
  | acc, [c] => [(c :: acc).reverse]
  | acc, c1 :: c2 :: rest =>
    if c1 = '.' ∧ c2 = '.' then acc.reverse :: splitDotsAux [] rest
    else splitDotsAux (c1 :: acc) (c2 :: rest)

/-- Model of Rust `str::trim_start_matches` with a string pattern:
repeatedly strip `pat` from the front while it is a prefix. The fuel only
bounds the recursion and is always supplied as the text's length, which
suffices because each round removes at least one character. -/
def trimStartAux : Nat → List Char → List Char → List Char
  | 0, _, s => s
  | fuel + 1, pat, s =>
    if pat ≠ [] ∧ pat.isPrefixOf s then trimStartAux fuel pat (s.drop pat.length)
    else s

/-- Rust `str::trim_start_matches`, over character lists. -/
def trimStartMatches (pat s : List Char) : List Char :=
  trimStartAux s.length pat s

/-- Value of one hex digit, lowercase or uppercase, as accepted by Rust
`i32::from_str_radix(_, 16)`. -/
def hexDigitVal? (c : Char) : Option Nat :=
  if '0' ≤ c ∧ c ≤ '9' then some (c.toNat - 48)
  else if 'a' ≤ c ∧ c ≤ 'f' then some (c.toNat - 87)
  else if 'A' ≤ c ∧ c ≤ 'F' then some (c.toNat - 55)
  else none

/-- Value of a hex digit string (most significant digit first). -/
def hexVal (l : List Char) : Nat :=
  l.foldl (fun a c => 16 * a + (hexDigitVal? c).getD 0) 0

/-- Model of Rust `i32::from_str_radix(s, 16)`: an optional sign, then one
or more hex digits; the value must fit in an `i32`, else `Err`. -/
def fromStrRadix16? (l : List Char) : Option Int :=
  let p :=
    match l with
    | c :: rest =>
      if c = '-' then (true, rest) else if c = '+' then (false, rest) else (false, l)
    | [] => (false, l)
  if !p.2.isEmpty && p.2.all (fun c => (hexDigitVal? c).isSome) then
    if p.1 then
      if hexVal p.2 ≤ 2 ^ 31 then some (-(hexVal p.2 : Int)) else none
    else
      if hexVal p.2 ≤ 2 ^ 31 - 1 then some (hexVal p.2 : Int) else none
  else none

/-- Hex rendering of one range element in `parse_range`: Rust
`format!` with the spec `0x:02x`, i.e. a `0x` prefix and the value in
lowercase hex, zero-padded to at least two digits; a negative `i32` prints
its two's-complement bits. -/
def fmtHex (x : Int) : String :=
  let ds := Nat.toDigits 16 (x % (2 ^ 32 : Int)).toNat
  ⟨'0' :: 'x' :: (List.replicate (2 - ds.length) '0' ++ ds)⟩

/-- Rust `(start..end)` over `i32`, as the list of its elements. -/
def rangeExcl (a b : Int) : List Int := (List.range (b - a).toNat).map fun i => a + i

/-- Rust `(start..=end)` over `i32`, as the list of its elements. -/
def rangeIncl (a b : Int) : List Int := (List.range (b - a + 1).toNat).map fun i => a + i

/-- parse_range from `config.rs`, over the character list of its input. The
outer `Option` models the `unwrap` calls on `i32::from_str_radix`: `none` is
a Rust panic, while `some (.error _)` is an `Err` returned by the function
itself. -/
def parse_rangeL (input : List Char) : Option (Except String (List String)) :=
  match splitDotsAux [] input with
  | [p0, p1] =>
    let inclusive := p1.head? = some '='
    match fromStrRadix16? (trimStartMatches ['0', 'x'] p0) with
    | none => none
    | some a =>
      match (if inclusive then fromStrRadix16? (trimStartMatches ['=', '0', 'x'] p1)
             else fromStrRadix16? (trimStartMatches ['0', 'x'] p1)) with
      | none => none
      | some b =>
        if a > b then some (.error "Start value cannot be greater than end value")
        else if inclusive then some (.ok ((rangeIncl a b).map fmtHex))
        else some (.ok ((rangeExcl a b).map fmtHex))
  | _ => some (.error "Invalid range format. Use START..END or START..=END")

/-- parse_range from `config.rs` on its string input. -/
def parse_range (input : String) : Option (Except String (List String)) :=
  parse_rangeL input.data

/-- A hex token as it appears in a range bound: the digit string, with or
without the `0x` prefix. -/
def hexTok (pre : Bool) (d : List Char) : List Char :=
  (if pre then ['0', 'x'] else []) ++ d

/-- Rust `str::contains("..")`, used by `RpcCommand::parse_params` to spot a
range token. -/
def containsDots : List Char → Bool
  | [] => false
  | [_] => false
  | c1 :: c2 :: rest => (c1 = '.' && c2 = '.') || containsDots (c2 :: rest)

/-- The range-expansion step of the fold inside `RpcCommand::parse_params`
in `config.rs`, for one parameter token list: the first token containing
`..` is expanded into one copy of the parameter per range value (the code
breaks after the first such token); a parameter with no range token is kept
as-is. `none` models the `unwrap` on `parse_range`. -/
def expandParam (param : List String) : Option (List (List String)) :=
  match param.findIdx? (fun t => containsDots t.data) with
  | none => some [param]
  | some j =>
    match parse_range (param.getD j "") with
    | some (.ok range) => some (range.map fun v => param.set j v)
    | _ => none

/-- The whole expansion fold of `RpcCommand::parse_params`: parameters are
processed in order and their expansions concatenated. -/
def expandParams (params : List (List String)) : Option (List (List String)) :=
  params.foldl (fun acc p => acc.bind fun l => (expandParam p).map (l ++ ·)) (some [])

/-- Request construction in `RpcCommand::parse_params` (the no-input-file
branch): after range expansion, every parameter list becomes exactly one
request pairing the method name with the encoded parameters;
`parse_rpc_params`/serde_json are external and abstracted by `encode`. -/
def parse_params (V : Type) (encode : List String → V) (method : String)
    (params : List (List String)) : Option (List (String × V)) :=
  (expandParams params).map fun l => l.map fun p => (method, encode p)

theorem foldl_complete_request_error (dispatch : Request → Bool) (rs : List Request)
    (st : SessionStats) :
    (rs.foldl (fun acc r => acc.complete_request (dispatch r)) st).error_count =
      st.error_count + (rs.filter fun r => !(dispatch r)).length := by
  induction rs generalizing st with
  | nil => simp
  | cons r rs ih =>
    rw [List.foldl_cons, ih]
    cases h : dispatch r <;>
      simp [SessionStats.complete_request, List.filter_cons, h]
    all_goals omega

theorem foldl_complete_request_count (dispatch : Request → Bool) (rs : List Request)
    (st : SessionStats) :
    (rs.foldl (fun acc r => acc.complete_request (dispatch r)) st).req_count =
      st.req_count + rs.length := by
  induction rs generalizing st with
  | nil => simp
  | cons r rs ih =>
    rw [List.foldl_cons, ih]
    simp [SessionStats.complete_request]
    omega

/-- C8: `is_not_zero()` returns `false` exactly when the interval is
`Unbounded`, a zero `Count`, or a zero-length `Time` duration; for every
other value it returns `true`. -/
theorem interval_is_not_zero_iff (v : Interval) :
    v.is_not_zero = false ↔ (v = .Unbounded ∨ v = .Count 0 ∨ v = .Time 0) := by
  cases v <;> simp [Interval.is_not_zero]

theorem interval_is_not_zero_iff_witness :
    Interval.is_not_zero (.Count 0) = false ∧ ¬Interval.is_not_zero (.Time 7) = false :=
  ⟨(interval_is_not_zero_iff _).mpr (by simp),
   fun h => by simpa using (interval_is_not_zero_iff _).mp h⟩

/-- C7: `Interval::from_str` first tries the string as a non-negative
integer and yields `Count n` with the parsed value; on failure it tries the
duration parser and yields `Time d`; when both fail it returns the parse
error stating that an integer count or a time duration was expected. -/
theorem interval_from_str_spec (parseDur : String → Option Nat) (s : String) :
    (∀ n, parseU64? s = some n → Interval.from_str parseDur s = .ok (.Count n)) ∧
    (∀ d, parseU64? s = none → parseDur s = some d →
      Interval.from_str parseDur s = .ok (.Time d)) ∧
    (parseU64? s = none → parseDur s = none →
      Interval.from_str parseDur s =
        .error "Required integer number of cycles or time duration") := by
  refine ⟨?_, ?_, ?_⟩
  · intro n hn
    simp [Interval.from_str, hn]
  · intro d hn hd
    simp [Interval.from_str, hn, hd]
  · intro hn hd
    simp [Interval.from_str, hn, hd]

theorem interval_from_str_spec_witness :
    Interval.from_str (fun t => if t = "5s" then some 5000000000 else none) "42" =
      .ok (.Count 42) ∧
    Interval.from_str (fun t => if t = "5s" then some 5000000000 else none) "5s" =
      .ok (.Time 5000000000) ∧
    Interval.from_str (fun t => if t = "5s" then some 5000000000 else none) "9kg" =
      .error "Required integer number of cycles or time duration" :=
  ⟨(interval_from_str_spec _ "42").1 42 (by decide),
   (interval_from_str_spec _ "5s").2.1 5000000000 (by decide) (by decide),
   (interval_from_str_spec _ "9kg").2.2 (by decide) (by decide)⟩

/-- C5: `operation_completed` applied `k` times increases `call_count` by
exactly `k`, and every recorded duration is clamped into
`[1, u64::MAX]` nanoseconds before insertion; in particular a zero-length
duration is recorded as `1`, never `0`. -/
theorem fn_stats_operation_completed_spec (s : FnStats) (ds : List Nat) (d : Nat) :
    (applyOps s ds).call_count = s.call_count + ds.length ∧
    (s.operation_completed d).call_times_ns = s.call_times_ns ++ [clampNanos d] ∧
    1 ≤ clampNanos d ∧ clampNanos d ≤ 2 ^ 64 - 1 ∧
    (s.operation_completed 0).call_times_ns = s.call_times_ns ++ [1] := by
  refine ⟨?_, rfl, le_min (le_max_right _ _) (by norm_num), min_le_right _ _, ?_⟩
  · induction ds generalizing s with
    | nil => simp [applyOps]
    | cons a as ih =>
      have h1 : applyOps s (a :: as) = applyOps (s.operation_completed a) as := rfl
      rw [h1, ih]
      simp [FnStats.operation_completed]
      omega
  · norm_num [FnStats.operation_completed, clampNanos]

/-- C2: `take_stats(end_time)` snapshots the `fn_stats` accumulated since
the last reset/take together with the stored `start_time`, then clears the
state: the retained `start_time` becomes the snapshot's `end_time` (so
elapsed-time accounting is contiguous), and a second `take_stats` with no
`run` in between reports a `call_count` of `0`. -/
theorem take_stats_spec (w : Workload) (e1 e2 : Nat) :
    (w.take_stats e1).1.function_stats = w.state.fn_stats ∧
    (w.take_stats e1).1.start_time = w.state.start_time ∧
    (w.take_stats e1).1.end_time = e1 ∧
    ((w.take_stats e1).2).state.start_time = e1 ∧
    ((w.take_stats e1).2).state.fn_stats = FnStats.default ∧
    (((w.take_stats e1).2).take_stats e2).1.function_stats.call_count = 0 ∧
    (((w.take_stats e1).2).take_stats e2).1.start_time = e1 :=
  ⟨rfl, rfl, rfl, rfl, rfl, rfl, rfl⟩

/-- C3: `Workload::run(cycle)` returns `Ok((cycle, end_time))` for every
cycle and every dispatch outcome; dispatch failures only show up in the
`SessionStats` error counter, and the cycle's elapsed time is still fed into
`fn_stats` via `operation_completed`. -/
theorem workload_run_always_ok (w : Workload) (cycle : Nat) (dispatch : Request → Bool)
    (start_time end_time : Nat) :
    (w.run cycle dispatch start_time end_time).1 = .ok (cycle, end_time) ∧
    ((w.run cycle dispatch start_time end_time).2).state.fn_stats =
      w.state.fn_stats.operation_completed (end_time - start_time) ∧
    ((w.run cycle dispatch start_time end_time).2).context.stats.error_count =
      w.context.stats.error_count + (w.requests.filter fun r => !(dispatch r)).length ∧
    ((w.run cycle dispatch start_time end_time).2).context.stats.req_count =
      w.context.stats.req_count + w.requests.length :=
  ⟨rfl, rfl, foldl_complete_request_error dispatch w.requests w.context.stats,
   foldl_complete_request_count dispatch w.requests w.context.stats⟩

/-- C6: `Workload::clone` deep-copies the request list and constructs a
brand-new zeroed `WorkloadState` — the clone's counters are fresh no matter
what the original has accumulated — and it fails exactly when the underlying
`Context` cannot be duplicated, propagating that error. -/
theorem workload_clone_spec (w : Workload) (now : Nat) :
    (∀ c, w.context.clone = .ok c →
      w.clone now = .ok ⟨c, WorkloadState.init now, w.requests⟩) ∧
    (∀ w2, w.clone now = .ok w2 →
      w2.requests = w.requests ∧ w2.state.fn_stats = FnStats.default ∧
        w2.state.fn_stats.call_count = 0 ∧ w2.state.fn_stats.call_times_ns = []) ∧
    (∀ e, w.context.clone = .error e → w.clone now = .error e) := by
  refine ⟨?_, ?_, ?_⟩
  · intro c hc
    simp [Workload.clone, hc]
  · intro w2 h2
    cases hc : w.context.clone with
    | ok c =>
      simp [Workload.clone, hc] at h2
      simp [← h2, WorkloadState.init, FnStats.default]
    | error e =>
      simp [Workload.clone, hc] at h2
  · intro e he
    simp [Workload.clone, he]

theorem workload_clone_spec_witness :
    (Workload.new ⟨true, ⟨7, 3⟩⟩ [⟨"eth_getBlockByNumber", "0x123"⟩] 0).clone 5 =
      .ok ⟨⟨true, SessionStats.default⟩, WorkloadState.init 5,
        [⟨"eth_getBlockByNumber", "0x123"⟩]⟩ :=
  (workload_clone_spec _ 5).1 _ rfl

theorem logb_ten_1000 : Real.logb 10 (1000 : ℝ) = 3 := by
  rw [show (1000 : ℝ) = 10 ^ (3 : ℕ) by norm_num, Real.logb_pow,
    Real.logb_self_eq_one (by norm_num)]
  norm_num

theorem ten_mul_exp_two_lt : 10 * Real.exp 2 < 1000 := by
  have h := Real.exp_one_lt_d9
  have h2 : Real.exp 2 = Real.exp 1 * Real.exp 1 := by
    rw [← Real.exp_add]
    norm_num
  nlinarith [Real.exp_pos 1]

/-- C9: ramp start and max rates use truncating integer division before the
float conversion: for `num_req` not dividing 10 the start rate differs from
the true quotient (for `num_req = 3` it is exactly `3`), and for
`num_req > 10` it is `0`. -/
theorem ramp_integer_division_truncates (n : Nat) (hn : 0 < n) :
    (¬n ∣ 10 → rampStartRate n ≠ 10 / (n : ℝ)) ∧
    (10 < n → rampStartRate n = 0) ∧
    rampStartRate 3 = 3 ∧
    (∀ c, 10 < n → rampMaxRate c n = ((c / n : Nat) : ℝ)) := by
  refine ⟨?_, ?_, by norm_num [rampStartRate], fun c _ => rfl⟩
  · intro hdvd heq
    have hn0 : (n : ℝ) ≠ 0 := Nat.cast_ne_zero.mpr hn.ne'
    have hmul : ((10 / n : Nat) : ℝ) * (n : ℝ) = 10 := by
      rw [rampStartRate] at heq
      rw [heq]
      field_simp
    have hnat : (10 / n) * n = 10 := by exact_mod_cast hmul
    exact hdvd (Dvd.intro_left _ hnat)
  · intro h10
    rw [rampStartRate, Nat.div_eq_of_lt (by omega)]
    norm_num

theorem ramp_integer_division_truncates_witness :
    0 < 3 ∧ rampStartRate 3 ≠ 10 / ((3 : Nat) : ℝ) ∧ rampStartRate 11 = 0 :=
  ⟨by norm_num, (ramp_integer_division_truncates 3 (by norm_num)).1 (by norm_num),
   (ramp_integer_division_truncates 11 (by norm_num)).2.1 (by norm_num)⟩

/-- C1 (divergence witness): the generated ramp is inclusive at the start —
element 0 equals the start rate (`10.0` for `num_req = 1`, `5.0` for
`num_req = 2`) — but NOT at the end: because the code applies `E.powf` to a
difference of `log10`s, element 9 equals `start * e^(log10(end) -
log10(start))` (`10·e²` for ceiling 1000, `num_req = 1`), which is not the
configured end rate `1000`. -/
theorem ramp_endpoints_bug_eval :
    parse_rate (some 1000) none 1 = some ((List.range 10).map fun i => rampRate 1000 1 i) ∧
    rampRate 1000 1 0 = 10 ∧
    rampRate 2000 2 0 = 5 ∧
    rampRate 1000 1 9 = 10 * Real.exp 2 ∧
    rampRate 1000 1 9 ≠ 1000 ∧
    rampRate 2000 2 9 ≠ 1000 := by
  have hm1 : rampMaxRate 1000 1 = 1000 := by norm_num [rampMaxRate]
  have hs1 : rampStartRate 1 = 10 := by norm_num [rampStartRate]
  have hm2 : rampMaxRate 2000 2 = 1000 := by norm_num [rampMaxRate]
  have hs2 : rampStartRate 2 = 5 := by norm_num [rampStartRate]
  have hval1 : rampRate 1000 1 9 = 10 * Real.exp 2 := by
    rw [rampRate, hm1, hs1, logb_ten_1000, Real.logb_self_eq_one (by norm_num)]
    norm_num
  refine ⟨rfl, ?_, ?_, hval1, ?_, ?_⟩
  · simp [rampRate, hs1]
  · simp [rampRate, hs2]
  · rw [hval1]
    exact ne_of_lt ten_mul_exp_two_lt
  · have hlogb5 : 0 ≤ Real.logb 10 (5 : ℝ) :=
      Real.logb_nonneg (by norm_num) (by norm_num)
    have hval2 : rampRate 2000 2 9 =
        5 * Real.exp ((3 - Real.logb 10 (5 : ℝ)) * (((9 : Nat) : ℝ) / 9)) := by
      rw [rampRate, hm2, hs2, logb_ten_1000]
    have hnine : (((9 : Nat) : ℝ) / 9) = 1 := by norm_num
    have he3 : Real.exp 3 < 21 := by
      have h := Real.exp_one_lt_d9
      have h3 : Real.exp 3 = Real.exp 1 * Real.exp 1 * Real.exp 1 := by
        rw [← Real.exp_add, ← Real.exp_add]
        norm_num
      nlinarith [Real.exp_pos 1]
    have hle : Real.exp ((3 - Real.logb 10 (5 : ℝ)) * 1) ≤ Real.exp 3 := by
      apply Real.exp_le_exp.mpr
      nlinarith
    rw [hval2, hnine]
    intro hcontra
    nlinarith [Real.exp_pos ((3 - Real.logb 10 (5 : ℝ)) * 1)]

/-- C4 (counterexample): for the ramp configuration ceiling 1, `num_req = 1`
the start rate is 10 and the end rate 1, so the generated sequence is
strictly decreasing at its first step — `parse_rate` does NOT always return
a monotonically non-decreasing sequence. -/
theorem parse_rate_not_monotone_cex :
    parse_rate (some 1) none 1 = some ((List.range 10).map fun i => rampRate 1 1 i) ∧
    rampRate 1 1 1 < rampRate 1 1 0 := by
  refine ⟨rfl, ?_⟩
  have hs : rampStartRate 1 = 10 := by norm_num [rampStartRate]
  have hm : rampMaxRate 1 1 = 1 := by norm_num [rampMaxRate]
  rw [rampRate, rampRate, hs, hm]
  simp only [Real.logb_one]
  rw [Real.logb_self_eq_one (by norm_num)]
  norm_num

/-- C4 (amended): for EVERY ramp configuration `parse_rate` returns exactly
10 rate points, ignoring the flat rate list, with a constant ratio step in
log-space (adjacent elements always have the same quotient). The sequence is
monotonically non-decreasing whenever the truncated end rate
`ceiling / num_req` is at least the truncated start rate `10 / num_req`,
and for `1 ≤ ceiling / num_req < 10 / num_req` it is strictly decreasing at
every adjacent step. -/
theorem parse_rate_ramp_amended (c n i j : Nat) (r r2 : Option (List ℝ)) :
    parse_rate (some c) r n = some ((List.range 10).map fun i => rampRate c n i) ∧
    ((List.range 10).map fun i => rampRate c n i).length = 10 ∧
    parse_rate (some c) r n = parse_rate (some c) r2 n ∧
    (10 / n ≤ c / n → i ≤ j → rampRate c n i ≤ rampRate c n j) ∧
    (1 ≤ c / n → c / n < 10 / n → rampRate c n (i + 1) < rampRate c n i) ∧
    rampRate c n (i + 1) * rampRate c n j = rampRate c n (j + 1) * rampRate c n i := by
  refine ⟨rfl, by simp, rfl, ?_, ?_, ?_⟩
  · intro h hij
    rcases Nat.eq_zero_or_pos (10 / n) with hz | hp
    · simp [rampRate, rampStartRate, hz]
    · have hs1 : (1 : ℝ) ≤ rampStartRate n := by
        rw [rampStartRate]
        exact_mod_cast hp
      have hs0 : 0 < rampStartRate n := lt_of_lt_of_le one_pos hs1
      have hsm : rampStartRate n ≤ rampMaxRate c n := by
        rw [rampStartRate, rampMaxRate]
        exact_mod_cast h
      have hk : 0 ≤ Real.logb 10 (rampMaxRate c n) - Real.logb 10 (rampStartRate n) := by
        have := Real.logb_le_logb_of_le (b := 10) (by norm_num) hs0 hsm
        linarith
      rw [rampRate, rampRate]
      apply mul_le_mul_of_nonneg_left _ (le_of_lt hs0)
      apply Real.exp_le_exp.mpr
      apply mul_le_mul_of_nonneg_left _ hk
      have hcast : (i : ℝ) ≤ (j : ℝ) := by exact_mod_cast hij
      linarith
  · intro h1 h2
    have hs1 : (1 : ℝ) ≤ rampMaxRate c n := by
      rw [rampMaxRate]
      exact_mod_cast h1
    have hes : rampMaxRate c n < rampStartRate n := by
      rw [rampMaxRate, rampStartRate]
      exact_mod_cast h2
    have hm0 : (0 : ℝ) < rampMaxRate c n := lt_of_lt_of_le one_pos hs1
    have hs0 : (0 : ℝ) < rampStartRate n := lt_trans hm0 hes
    have hk : Real.logb 10 (rampMaxRate c n) - Real.logb 10 (rampStartRate n) < 0 := by
      have := Real.logb_lt_logb (b := 10) (by norm_num) hm0 hes
      linarith
    rw [rampRate, rampRate]
    apply mul_lt_mul_of_pos_left _ hs0
    apply Real.exp_lt_exp.mpr
    have hdiv : (i : ℝ) / 9 < ((i + 1 : Nat) : ℝ) / 9 := by
      push_cast
      linarith
    exact mul_lt_mul_of_neg_left hdiv hk
  · simp only [rampRate]
    have hmul : ∀ x y : ℝ,
        (rampStartRate n * Real.exp x) * (rampStartRate n * Real.exp y) =
          rampStartRate n * rampStartRate n * Real.exp (x + y) := by
      intro x y
      rw [Real.exp_add]
      ring
    rw [hmul, hmul]
    congr 1
    push_cast
    ring

theorem parse_rate_ramp_amended_witness :
    rampRate 1000 1 0 ≤ rampRate 1000 1 1 ∧ rampRate 1 1 1 < rampRate 1 1 0 :=
  ⟨(parse_rate_ramp_amended 1000 1 0 1 none (some [42])).2.2.2.1 (by norm_num) (by norm_num),
   (parse_rate_ramp_amended 1 1 0 0 none none).2.2.2.2.1 (by norm_num) (by norm_num)⟩

theorem splitDotsAux_cons_ne (acc : List Char) (c : Char) (l : List Char)
    (hl : l ≠ []) (hc : c ≠ '.') :
    splitDotsAux acc (c :: l) = splitDotsAux (c :: acc) l := by
  cases l with
  | nil => exact absurd rfl hl
  | cons c2 r =>
    have hne : ¬(c = '.' ∧ c2 = '.') := fun hx => hc hx.1
    simp [splitDotsAux, hne]

theorem splitDotsAux_no_dots (b : List Char) (hb : ∀ c ∈ b, c ≠ '.') (acc : List Char) :
    splitDotsAux acc b = [acc.reverse ++ b] := by
  induction b generalizing acc with
  | nil => simp [splitDotsAux]
  | cons c tail ih =>
    cases tail with
    | nil => simp [splitDotsAux]
    | cons c2 rest =>
      rw [splitDotsAux_cons_ne acc c (c2 :: rest) (by simp) (hb c (by simp)),
        ih (fun x hx => hb x (by simp [hx]))]
      simp

theorem splitDotsAux_append (a : List Char) (ha : ∀ c ∈ a, c ≠ '.') (acc b : List Char) :
    splitDotsAux acc (a ++ '.' :: '.' :: b) = (acc.reverse ++ a) :: splitDotsAux [] b := by
  induction a generalizing acc with
  | nil => simp [splitDotsAux]
  | cons c a2 ih =>
    rw [List.cons_append,
      splitDotsAux_cons_ne acc c (a2 ++ '.' :: '.' :: b) (by simp) (ha c (by simp)),
      ih (fun x hx => ha x (by simp [hx]))]
    simp

theorem trimStartAux_stuck (fuel : Nat) (pat s : List Char) (h : ¬pat.isPrefixOf s) :
    trimStartAux fuel pat s = s := by
  cases fuel with
  | zero => rfl
  | succ f => simp [trimStartAux, h]

theorem trimStartAux_strip (fuel : Nat) (pat rest : List Char) (hp : pat ≠ [])
    (h : ¬pat.isPrefixOf rest) :
    trimStartAux (fuel + 1) pat (pat ++ rest) = rest := by
  have hpre : pat.isPrefixOf (pat ++ rest) := by
    rw [List.isPrefixOf_iff_prefix]
    exact List.prefix_append pat rest
  rw [trimStartAux, if_pos ⟨hp, hpre⟩, List.drop_left]
  exact trimStartAux_stuck fuel pat rest h

theorem trimStartMatches_strip (pat rest : List Char) (hp : pat ≠ [])
    (h : ¬pat.isPrefixOf rest) :
    trimStartMatches pat (pat ++ rest) = rest := by
  have hlen : (pat ++ rest).length = (pat.length - 1 + rest.length) + 1 := by
    cases pat with
    | nil => exact absurd rfl hp
    | cons c t => simp [List.length_append]
  rw [trimStartMatches, hlen]
  exact trimStartAux_strip _ pat rest hp h

theorem trimStartMatches_stuck (pat s : List Char) (h : ¬pat.isPrefixOf s) :
    trimStartMatches pat s = s :=
  trimStartAux_stuck _ pat s h

theorem ox_not_prefix_of_hex (l : List Char) (hl : ∀ c ∈ l, (hexDigitVal? c).isSome) :
    ¬(['0', 'x'].isPrefixOf l) := by
  intro h
  cases l with
  | nil => simp [List.isPrefixOf] at h
  | cons c1 t =>
    cases t with
    | nil => simp [List.isPrefixOf] at h
    | cons c2 t2 =>
      simp [List.isPrefixOf] at h
      have hx := hl c2 (by simp)
      rw [← h.2] at hx
      simp [hexDigitVal?] at hx

theorem eox_not_prefix_of_hex (l : List Char) (hl : ∀ c ∈ l, (hexDigitVal? c).isSome) :
    ¬(['=', '0', 'x'].isPrefixOf l) := by
  intro h
  cases l with
  | nil => simp [List.isPrefixOf] at h
  | cons c1 t =>
    have h1 : c1 = '=' := by
      simp [List.isPrefixOf] at h
      exact h.1.symm
    have hx := hl c1 (by simp)
    rw [h1] at hx
    simp [hexDigitVal?] at hx

theorem fromStrRadix16_digits (l : List Char) (hne : l ≠ [])
    (hl : ∀ c ∈ l, (hexDigitVal? c).isSome) (hb : hexVal l ≤ 2 ^ 31 - 1) :
    fromStrRadix16? l = some ((hexVal l : Int)) := by
  cases l with
  | nil => exact absurd rfl hne
  | cons c rest =>
    have hc := hl c (by simp)
    have hcm : c ≠ '-' := by
      intro hx
      rw [hx] at hc
      simp [hexDigitVal?] at hc
    have hcp : c ≠ '+' := by
      intro hx
      rw [hx] at hc
      simp [hexDigitVal?] at hc
    have hall : (c :: rest).all (fun d => (hexDigitVal? d).isSome) = true := by
      rw [List.all_eq_true]
      intro d hd
      exact hl d hd
    simp only [fromStrRadix16?, if_neg hcm, if_neg hcp]
    simp [hall, show hexVal (c :: rest) ≤ 2147483647 by omega]

theorem hexTok_no_dots (pre : Bool) (d : List Char)
    (hd : ∀ c ∈ d, (hexDigitVal? c).isSome) : ∀ c ∈ hexTok pre d, c ≠ '.' := by
  intro c hc
  rw [hexTok, List.mem_append] at hc
  rcases hc with hc | hc
  · cases pre with
    | true =>
      simp at hc
      rcases hc with rfl | rfl <;> decide
    | false => simp at hc
  · intro hdot
    have := hd c hc
    rw [hdot] at this
    simp [hexDigitVal?] at this

theorem trim_ox_hexTok (pre : Bool) (d : List Char)
    (hd : ∀ c ∈ d, (hexDigitVal? c).isSome) :
    trimStartMatches ['0', 'x'] (hexTok pre d) = d := by
  cases pre with
  | true => exact trimStartMatches_strip _ _ (by simp) (ox_not_prefix_of_hex d hd)
  | false =>
    show trimStartMatches ['0', 'x'] ([] ++ d) = d
    rw [List.nil_append]
    exact trimStartMatches_stuck _ _ (ox_not_prefix_of_hex d hd)

theorem hexTok_head_ne_eq (pre : Bool) (d : List Char) (hne : d ≠ [])
    (hd : ∀ c ∈ d, (hexDigitVal? c).isSome) :
    ¬((hexTok pre d).head? = some '=') := by
  cases pre with
  | true => simp [hexTok]
  | false =>
    cases d with
    | nil => exact absurd rfl hne
    | cons c t =>
      simp [hexTok]
      intro hc
      have := hd c (by simp)
      rw [hc] at this
      simp [hexDigitVal?] at this

theorem parse_range_full (da db : List Char) (pa pb : Bool)
    (hda : da ≠ []) (hdb : db ≠ [])
    (hhexa : ∀ c ∈ da, (hexDigitVal? c).isSome)
    (hhexb : ∀ c ∈ db, (hexDigitVal? c).isSome)
    (hba : hexVal da ≤ 2 ^ 31 - 1) (hbb : hexVal db ≤ 2 ^ 31 - 1) :
    (hexVal da ≤ hexVal db →
      parse_rangeL (hexTok pa da ++ '.' :: '.' :: hexTok pb db) =
        some (.ok ((rangeExcl (hexVal da) (hexVal db)).map fmtHex)) ∧
      parse_rangeL (hexTok pa da ++ '.' :: '.' :: '=' :: '0' :: 'x' :: db) =
        some (.ok ((rangeIncl (hexVal da) (hexVal db)).map fmtHex))) ∧
    (hexVal db < hexVal da →
      parse_rangeL (hexTok pa da ++ '.' :: '.' :: hexTok pb db) =
        some (.error "Start value cannot be greater than end value")) := by
  have hsplitE : splitDotsAux [] (hexTok pa da ++ '.' :: '.' :: hexTok pb db) =
      [hexTok pa da, hexTok pb db] := by
    rw [splitDotsAux_append _ (hexTok_no_dots pa da hhexa),
      splitDotsAux_no_dots _ (hexTok_no_dots pb db hhexb)]
    simp
  have hdotsI : ∀ c ∈ '=' :: '0' :: 'x' :: db, c ≠ '.' := by
    intro c hc
    simp only [List.mem_cons] at hc
    rcases hc with rfl | rfl | rfl | hc
    · decide
    · decide
    · decide
    · intro hdot
      have := hhexb c hc
      rw [hdot] at this
      simp [hexDigitVal?] at this
  have hsplitI : splitDotsAux [] (hexTok pa da ++ '.' :: '.' :: '=' :: '0' :: 'x' :: db) =
      [hexTok pa da, '=' :: '0' :: 'x' :: db] := by
    rw [splitDotsAux_append _ (hexTok_no_dots pa da hhexa),
      splitDotsAux_no_dots _ hdotsI]
    simp
  have hincl : ¬((hexTok pb db).head? = some '=') := hexTok_head_ne_eq pb db hdb hhexb
  have htrimI : trimStartMatches ['=', '0', 'x'] ('=' :: '0' :: 'x' :: db) = db :=
    trimStartMatches_strip ['=', '0', 'x'] db (by simp) (eox_not_prefix_of_hex db hhexb)
  refine ⟨fun hle => ⟨?_, ?_⟩, fun hlt => ?_⟩
  · have hgt : ¬((hexVal da : Int) > (hexVal db : Int)) := by
      simp only [gt_iff_lt, not_lt]
      exact_mod_cast hle
    simp only [parse_rangeL, hsplitE, trim_ox_hexTok pa da hhexa,
      fromStrRadix16_digits da hda hhexa hba, if_neg hincl, trim_ox_hexTok pb db hhexb,
      fromStrRadix16_digits db hdb hhexb hbb, if_neg hgt]
  · have hgt : ¬((hexVal da : Int) > (hexVal db : Int)) := by
      simp only [gt_iff_lt, not_lt]
      exact_mod_cast hle
    have hheadI : (('=' :: '0' :: 'x' :: db).head? = some '=') := rfl
    simp only [parse_rangeL, hsplitI, trim_ox_hexTok pa da hhexa,
      fromStrRadix16_digits da hda hhexa hba, hheadI, if_pos rfl, htrimI,
      fromStrRadix16_digits db hdb hhexb hbb, if_neg hgt]
    simp
    exact hle
  · have hgt : ((hexVal da : Int) > (hexVal db : Int)) := by exact_mod_cast hlt
    simp only [parse_rangeL, hsplitE, trim_ox_hexTok pa da hhexa,
      fromStrRadix16_digits da hda hhexa hba, if_neg hincl, trim_ox_hexTok pb db hhexb,
      fromStrRadix16_digits db hdb hhexb hbb, if_pos hgt]

theorem parse_rangeL_bad_format (s : List Char) (h : (splitDotsAux [] s).length ≠ 2) :
    parse_rangeL s = some (.error "Invalid range format. Use START..END or START..=END") := by
  rcases hsplit : splitDotsAux [] s with _ | ⟨p0, _ | ⟨p1, _ | ⟨p2, t⟩⟩⟩
  · simp only [parse_rangeL, hsplit]
  · simp only [parse_rangeL, hsplit]
  · rw [hsplit] at h
    simp at h
  · simp only [parse_rangeL, hsplit]

/-- C10 (counterexample): the input `1..=5` is of the inclusive form
`A..=B` with hexadecimal `A = 1 ≤ B = 5`, yet `parse_range` does not return
the range list: `trim_start_matches("=0x")` leaves `=5` intact because the
end bound carries no `0x` prefix, `from_str_radix` fails on it, and the
`unwrap` panics (modelled as `none`). -/
theorem parse_range_inclusive_unprefixed_cex : parse_range "1..=5" = none := rfl

/-- C10 (amended): `parse_range` behaves as claimed provided the bounds are
hex digit strings fitting in an `i32` and — this is the amendment forced by
the counterexample — the end bound of the inclusive form `A..=B` carries a
mandatory `0x` prefix (the code only strips the exact prefix `=0x`; a bare
`=B` makes `from_str_radix` panic). For `A..B` both bounds may carry an
optional `0x` prefix; `A ≤ B` yields the formatted half-open (resp. closed)
range, `A > B` the error, and an input that does not split into exactly two
parts around `..` the format error; `parse_params` expands a parameter whose
first range token parses into one request per range value. -/
theorem parse_range_spec_amended (da db : List Char) (pa pb : Bool)
    (hda : da ≠ []) (hdb : db ≠ [])
    (hhexa : ∀ c ∈ da, (hexDigitVal? c).isSome)
    (hhexb : ∀ c ∈ db, (hexDigitVal? c).isSome)
    (hba : hexVal da ≤ 2 ^ 31 - 1) (hbb : hexVal db ≤ 2 ^ 31 - 1) :
    (hexVal da ≤ hexVal db →
      parse_range ⟨hexTok pa da ++ '.' :: '.' :: hexTok pb db⟩ =
        some (.ok ((rangeExcl (hexVal da) (hexVal db)).map fmtHex)) ∧
      parse_range ⟨hexTok pa da ++ '.' :: '.' :: '=' :: '0' :: 'x' :: db⟩ =
        some (.ok ((rangeIncl (hexVal da) (hexVal db)).map fmtHex))) ∧
    (hexVal db < hexVal da →
      parse_range ⟨hexTok pa da ++ '.' :: '.' :: hexTok pb db⟩ =
        some (.error "Start value cannot be greater than end value")) ∧
    (∀ s : String, (splitDotsAux [] s.data).length ≠ 2 →
      parse_range s = some (.error "Invalid range format. Use START..END or START..=END")) ∧
    (∀ (p : List String) (j : Nat) (rng : List String),
      p.findIdx? (fun t => containsDots t.data) = some j →
      parse_range (p.getD j "") = some (.ok rng) →
      expandParam p = some (rng.map fun v => p.set j v) ∧
        (rng.map fun v => p.set j v).length = rng.length) ∧
    (∀ (V : Type) (encode : List String → V) (m : String) (ps l : List (List String)),
      expandParams ps = some l →
      parse_params V encode m ps = some (l.map fun p => (m, encode p))) := by
  have hfull := parse_range_full da db pa pb hda hdb hhexa hhexb hba hbb
  refine ⟨fun hle => ⟨(hfull.1 hle).1, (hfull.1 hle).2⟩, fun hlt => hfull.2 hlt, ?_, ?_, ?_⟩
  · intro s h
    exact parse_rangeL_bad_format s.data h
  · intro p j rng hj hr
    constructor
    · simp only [expandParam, hj, hr]
    · simp
  · intro V encode m ps l hx
    simp [parse_params, hx]

theorem parse_range_spec_amended_witness :
    parse_range ⟨hexTok false ['1'] ++ '.' :: '.' :: hexTok true ['3']⟩ =
      some (.ok ((rangeExcl (hexVal ['1']) (hexVal ['3'])).map fmtHex)) ∧
    parse_range ⟨hexTok false ['1'] ++ '.' :: '.' :: '=' :: '0' :: 'x' :: ['3']⟩ =
      some (.ok ((rangeIncl (hexVal ['1']) (hexVal ['3'])).map fmtHex)) :=
  (parse_range_spec_amended ['1'] ['3'] false true (by decide) (by decide) (by decide)
    (by decide) (by decide) (by decide)).1 (by decide)

end Flood
